import Mathlib

/-!
Shallow embedding of the text-to-calendar-event extraction core of the
`myexbackend` repository (TypeScript), for checking its natural-language
specification.

Embedded source files:
* `src/lib/text.ts`            — `normalizeText`
* `src/types/events.ts`        — `asISO` (type-level brand, identity at runtime),
                                 event / warning / result shapes
* `src/services/extractDate/llmEventExtractor.ts`
                               — `extractLLM`, `sanitizeEvent`, `extractJsonBlock`,
                                 `clampPositive`, zod schema `LlmOut`
* `src/services/extractRules.ts` (build artifact `extractRules`)
                               — `extractRules`, `isValidISO`, `guessTitleNear`
* `src/services/extractDate/smartEventExtractorSelector.ts`
                               — `extractSmart` (LLM-only variant, 15000 ms budget)
* `src/utils/subjectTime.ts`   — `parseSubjectDateRange`

External capabilities (JS builtins and npm libraries, not code of this
repository) are passed in as parameters: `Date.parse` becomes
`dateParse : String → Option Int` (`none` models `NaN`), the combined
`JSON.parse` + zod validation becomes `parseLlmOut : String → Option LlmOut`,
the `JSON.parse`-succeeds test inside `extractJsonBlock` becomes
`jsonOk : String → Bool`, chrono-node's `parseDates` becomes a hit oracle,
and the single awaited Groq call is an `LlmOutcome` (response string,
abort, or thrown error).  date-fns `parse`/`setYear`/`addYears`/`isBefore`
are modelled executably on a civil-calendar date structure.
-/

namespace Myex

/-! ### JS string primitives -/

/-- The JS whitespace set used by `String.prototype.trim` and regex `\s`. -/
def isJsWhitespace (c : Char) : Bool :=
  c = ' ' || c = '\t' || c = '\n' || c = '\r' ||
  c.toNat = 11 || c.toNat = 12 || c.toNat = 0xa0 || c.toNat = 0x1680 ||
  (0x2000 ≤ c.toNat && c.toNat ≤ 0x200a) ||
  c.toNat = 0x2028 || c.toNat = 0x2029 || c.toNat = 0x202f ||
  c.toNat = 0x205f || c.toNat = 0x3000 || c.toNat = 0xfeff

/-- JS `s.trim()` on a character list: drop whitespace from both ends. -/
def jsTrimList (l : List Char) : List Char :=
  ((l.dropWhile isJsWhitespace).reverse.dropWhile isJsWhitespace).reverse

/-- JS `s.trim()`. -/
def jsTrim (s : String) : String := ⟨jsTrimList s.data⟩

/-- JS `s.replace(/\r\n?/g, "\n")`: each CR or CR-LF becomes a single LF. -/
def replaceCR : List Char → List Char
  | [] => []
  | '\r' :: '\n' :: rest => '\n' :: replaceCR rest
  | '\r' :: rest => '\n' :: replaceCR rest
  | c :: rest => c :: replaceCR rest

/-- JS `s.replace(/\t/g, "  ")`: each tab becomes two spaces. -/
def replaceTab : List Char → List Char
  | [] => []
  | '\t' :: rest => ' ' :: ' ' :: replaceTab rest
  | c :: rest => c :: replaceTab rest

/-- Source `lib/text.ts` `normalizeText`: normalize line endings, tabs → two
spaces, then trim. -/
def normalizeText (s : String) : String :=
  ⟨jsTrimList (replaceTab (replaceCR s.data))⟩

/-! ### Data model (`types/events.ts`) -/

/-- Source `types/events.ts` `asISO`: a type-level brand only; at runtime it is the
identity on strings (no validation happens here). -/
def asISO (s : String) : String := s

/-- An extraction warning `{ code, message }`. -/
structure Warning where
  code : String
  message : String
  deriving DecidableEq, Repr

/-- The canonical output event (`EventLite`).  `end_` stands for the source
field `end` (a Lean keyword); `allDay` is `none` where the source leaves the
optional field unset. -/
structure EventLite where
  title : String
  start : String
  end_ : Option String
  allDay : Option Bool
  timezone : String
  source : String
  confidence : Rat
  deriving DecidableEq, Repr

/-- The response envelope `{ events, degraded, warnings? }`. -/
structure ExtractionResult where
  events : List EventLite
  degraded : Bool
  warnings : Option (List Warning)
  deriving DecidableEq, Repr

/-- A candidate event after zod validation (`LlmEvent` schema).  The schema
admits `start`/`end` as a non-empty string, `null`, or absent; both `null`
and absent behave identically downstream and are modelled as `none`. -/
structure LlmEvent where
  title : String
  start : Option String
  end_ : Option String
  allDay : Option Bool
  confidence : Option Rat
  deriving DecidableEq, Repr

/-- The validated payload (`LlmOut` schema): an events array (defaulting to
empty) and an optional list of free-text warnings. -/
structure LlmOut where
  events : List LlmEvent
  warnings : Option (List String)
  deriving DecidableEq, Repr

/-- Schema validity of the payload data that zod guarantees and
that the sanitizer relies on: titles are non-empty and present
`start`/`end` strings are non-empty. -/
def SchemaOk (p : LlmOut) : Prop :=
  ∀ e ∈ p.events, e.title ≠ "" ∧ e.start ≠ some "" ∧ e.end_ ≠ some ""

/-- Outcome of the single awaited Groq call inside `extractLLM`: a response
string, an abort (`AbortError`, fired by the budget timer), or any other
thrown error carrying a message. -/
inductive LlmOutcome where
  | ok (resp : String)
  | abortError
  | otherError (msg : String)
  deriving DecidableEq, Repr

/-- Input record of `extractLLM`. -/
structure LlmInput where
  text : Option String
  fileId : Option String
  timezone : String
  referenceDate : Option String
  budgetMs : Option Int
  model : Option String
  deriving DecidableEq, Repr

/-- Input record of `extractRules`. -/
structure RulesInput where
  text : Option String
  fileId : Option String
  timezone : String
  referenceDate : Option String
  deriving DecidableEq, Repr

/-- Input record of `extractSmart` (`llmFirst` and `budgetMs` are declared
but ignored by the source). -/
structure SmartInput where
  text : Option String
  fileId : Option String
  timezone : String
  referenceDate : Option String
  llmFirst : Option Bool
  budgetMs : Option Int
  deriving DecidableEq, Repr

/-- A chrono-node hit as exposed by `lib/chrono.ts` (`ChronoHit`). -/
structure ChronoHit where
  startISO : String
  endISO : Option String
  index : Nat
  deriving DecidableEq, Repr

/-! ### `extractJsonBlock` and its fence matcher -/

/-- The backtick character (0x60). -/
def tick : Char := Char.ofNat 96

/-- Left and right curly brace characters. -/
def lbrace : Char := Char.ofNat 123

def rbrace : Char := Char.ofNat 125

/-- Drop a leading case-insensitive `json` tag (the greedy `(?:json)?` of
the fence regex); leaves the list unchanged when the tag is absent. -/
def dropJsonTag (l : List Char) : List Char :=
  match l with
  | a :: b :: c :: d :: rest =>
    if a.toLower = 'j' && b.toLower = 's' && c.toLower = 'o' && d.toLower = 'n'
    then rest else l
  | _ => l

/-- Everything strictly before the first triple backtick, or `none` when no
closing fence exists. -/
def splitClose : List Char → Option (List Char)
  | a :: b :: c :: rest =>
    if a = tick && b = tick && c = tick then some []
    else (splitClose (b :: c :: rest)).map (a :: ·)
  | _ => none

/-- Leftmost match of the fence regex ```` /```(?:json)?\s*([\s\S]*?)\s*```/i ````:
find the first opening triple backtick from which a closing triple backtick
is reachable, and return the raw middle (the caller trims it, which makes
the raw middle interchangeable with the regex capture group). -/
def fenceSearch : List Char → Option (List Char)
  | [] => none
  | a :: rest =>
    match
      (match a :: rest with
       | x :: y :: z :: r2 =>
         if x = tick && y = tick && z = tick then splitClose (dropJsonTag r2)
         else none
       | _ => none) with
    | some mid => some mid
    | none => fenceSearch rest

/-- First index of `c` in `l` (JS `indexOf`, `none` for `-1`). -/
def idxOfChar (c : Char) : List Char → Option Nat
  | [] => none
  | a :: rest =>
    if a = c then some 0 else (idxOfChar c rest).map (· + 1)

/-- Last index of `c` in `l` (JS `lastIndexOf`, `none` for `-1`). -/
def lastIdxOfChar (c : Char) (l : List Char) : Option Nat :=
  (idxOfChar c l.reverse).map (fun i => l.length - 1 - i)

/-- JS `slice(a, b)` on a character list (for `0 ≤ a ≤ b ≤ length`). -/
def sliceList (l : List Char) (a b : Nat) : List Char :=
  (l.drop a).take (b - a)

/-- Function `extractJsonBlock` from `llmEventExtractor.ts`.  `jsonOk` models the
`JSON.parse(candidate)`-succeeds test used on the first-`{`-to-last-`}`
fallback slice. -/
def extractJsonBlock (jsonOk : String → Bool) (s : String) : String :=
  let t := jsTrim s
  let tl := t.data
  if tl.head? = some lbrace ∧ tl.getLast? = some rbrace then t
  else
    match fenceSearch tl with
    | some mid => ⟨jsTrimList mid⟩
    | none =>
      match idxOfChar lbrace tl, lastIdxOfChar rbrace tl with
      | some first, some last =>
        if first < last then
          let candidate : String := ⟨jsTrimList (sliceList tl first (last + 1))⟩
          if jsonOk candidate then candidate else t
        else t
      | _, _ => t

/-! ### `extractLLM` -/

/-- Source `clampPositive(n, min, max)` = `Math.max(min, Math.min(n, max))`. -/
def clampPositive (n mn mx : Int) : Int := max mn (min n mx)

/-- The effective timeout computed by `extractLLM`:
`clampPositive(input.budgetMs ?? 6000, 1000, 20000)`. -/
def effTimeoutMs (budgetMs : Option Int) : Int :=
  clampPositive (budgetMs.getD 6000) 1000 20000

/-- JS `x >= y` on two `Date.parse` results; any comparison against `NaN`
(modelled `none`) is false. -/
def jsGeB : Option Int → Option Int → Bool
  | some x, some y => decide (x ≥ y)
  | some _, none => false
  | none, _ => false

/-- Function `sanitizeEvent` from `llmEventExtractor.ts`.  `asISO` is the runtime
identity, so the `if (!startISO) return null` guard fires exactly on a
falsy `start` (absent, `null`, or the empty string); `end` is kept only
when non-falsy and `Date.parse(end) >= Date.parse(start)`. -/
def sanitizeEvent (dateParse : String → Option Int) (e : LlmEvent)
    (timezone : String) : Option EventLite :=
  match e.start with
  | none => none
  | some s =>
    if s = "" then none
    else
      let startISO := asISO s
      let endISO : Option String :=
        match e.end_ with
        | none => none
        | some t =>
          let maybe := asISO t
          if maybe ≠ "" ∧ jsGeB (dateParse maybe) (dateParse startISO) = true
          then some maybe else none
      let confidence := e.confidence.getD (3/5 : Rat)
      some
        { title := if jsTrim e.title = "" then "Untitled" else jsTrim e.title
          start := startISO
          end_ := endISO
          allDay := some (e.allDay.getD false)
          timezone := timezone
          source := "llm"
          confidence := confidence }

/-- Function `extractLLM` from `llmEventExtractor.ts`, with the external
`Date.parse`, `JSON.parse` + zod validation, inner `JSON.parse` test, and
the awaited Groq call supplied as parameters.  The empty-text guard runs
before the budget clamp and before the call; a thrown `AbortError` maps to
`LLM_TIMEOUT` (message carrying the clamped budget), any other thrown
error to `LLM_ERROR`, and a parse/schema failure to `LLM_BAD_JSON`. -/
def extractLLM (dateParse : String → Option Int)
    (parseLlmOut : String → Option LlmOut) (jsonOk : String → Bool)
    (outcome : LlmOutcome) (input : LlmInput) : ExtractionResult :=
  let raw := jsTrim (input.text.getD "")
  if raw = "" then
    ⟨[], true, some [⟨"EMPTY_TEXT", "empty text"⟩]⟩
  else
    let timeoutMs := effTimeoutMs input.budgetMs
    match outcome with
    | .ok respText =>
      let jsonStr := extractJsonBlock jsonOk respText
      match parseLlmOut jsonStr with
      | none =>
        ⟨[], true, some [⟨"LLM_BAD_JSON", "llm bad json/schema"⟩]⟩
      | some parsed =>
        let cleanEvents :=
          parsed.events.filterMap (fun e => sanitizeEvent dateParse e input.timezone)
        ⟨cleanEvents, false, some [⟨"LLM_OK", "llm success"⟩]⟩
    | .abortError =>
      ⟨[], true,
        some [⟨"LLM_TIMEOUT", "llm timeout after " ++ toString timeoutMs ++ "ms"⟩]⟩
    | .otherError msg =>
      ⟨[], true,
        some [⟨"LLM_ERROR", if msg = "" then "llm error" else msg⟩]⟩

/-! ### `extractRules` -/

/-- Function `isValidISO` from `extractRules.ts`: false on a falsy string, else
`Number.isFinite(Date.parse(s))`. -/
def isValidISO (dateParse : String → Option Int) (s : String) : Bool :=
  if s = "" then false else (dateParse s).isSome

/-- The `!h.endISO || isValidISO(h.endISO)` filter condition on a hit's
optional end: a missing or empty end passes, otherwise it must parse. -/
def endOkB (dateParse : String → Option Int) : Option String → Bool
  | none => true
  | some t => if t = "" then true else isValidISO dateParse t

/-- The last newline-delimited segment of a string
(`before.split("\n").pop() || ""`). -/
def lastSegment : List Char → List Char
  | [] => []
  | c :: rest =>
    if c = '\n' then lastSegment rest
    else
      let tail := lastSegment rest
      if rest.contains '\n' then tail else c :: rest

/-- Strip the leading run matched by `/^[-•*\s]+/`. -/
def stripLead (l : List Char) : List Char :=
  l.dropWhile (fun c => c = '-' || c = '•' || c = '*' || isJsWhitespace c)

/-- Function `guessTitleNear` from `extractRules.ts`: the trimmed, bullet-stripped
last line before the hit's offset, defaulting to `"Untitled"`. -/
def guessTitleNear (text : String) (index : Nat) : String :=
  let before := text.data.take index
  let line := lastSegment before
  let title := stripLead (jsTrimList line)
  if title = [] then "Untitled" else ⟨title⟩

/-- Function `extractRules` from `extractRules.ts`, with `Date.parse` and the
chrono-node `parseDates` wrapper supplied as parameters.  The final filter
re-checks the `end >= start` invariant and the path never marks itself
degraded. -/
def extractRules (dateParse : String → Option Int)
    (parseDates : String → Option String → List ChronoHit)
    (input : RulesInput) : ExtractionResult :=
  let raw := jsTrim (input.text.getD "")
  if raw = "" then
    ⟨[], false, some [⟨"EMPTY_TEXT", "empty text"⟩]⟩
  else
    let text := normalizeText raw
    let hits := parseDates text input.referenceDate
    let events :=
      ((hits.filter (fun h =>
          isValidISO dateParse h.startISO && endOkB dateParse h.endISO)).map
        (fun h =>
          ({ title := guessTitleNear text h.index,
             start := asISO h.startISO,
             end_ :=
               match h.endISO with
               | some t => if t = "" then none else some (asISO t)
               | none => none,
             allDay := none,
             timezone := input.timezone,
             source := "rules",
             confidence := (3/4 : Rat) } : EventLite))).filter
        (fun e =>
          match e.end_ with
          | none => true
          | some t => jsGeB (dateParse t) (dateParse e.start))
    ⟨events, false, none⟩

/-! ### `extractSmart` (selection policy) -/

/-- The fixed budget `LLM_WAIT_MS` of the selector. -/
def LLM_WAIT_MS : Int := 15000

/-- The spread `{ ...input, budgetMs: LLM_WAIT_MS }` passed by
`extractSmart` to `extractLLM`. -/
def toLlmInput (si : SmartInput) : LlmInput :=
  ⟨si.text, si.fileId, si.timezone, si.referenceDate, some LLM_WAIT_MS, none⟩

/-- Function `extractSmart` from `smartEventExtractorSelector.ts` (LLM-only
variant): invoke the LLM path with the fixed budget; when it returned zero
events without being degraded, force `degraded` and append a
`NO_RETURN_EVENT` warning, else pass the result through unchanged. -/
def extractSmart (dateParse : String → Option Int)
    (parseLlmOut : String → Option LlmOut) (jsonOk : String → Bool)
    (outcome : LlmOutcome) (input : SmartInput) : ExtractionResult :=
  let llm := extractLLM dateParse parseLlmOut jsonOk outcome (toLlmInput input)
  if llm.events = [] ∧ llm.degraded = false then
    { llm with
      degraded := true
      warnings :=
        some (llm.warnings.getD [] ++ [⟨"NO_RETURN_EVENT", "LLM returned 0 events"⟩]) }
  else llm

/-! ### Subject-line time-range parser (`utils/subjectTime.ts`)

JS `Date` values are modelled as civil local dates with minute precision
(`parseSubjectDateRange` only ever produces whole minutes and prints
seconds as a literal `":00"`); instants are compared through a
days-from-civil linearization, which matches `getTime()` comparison for a
fixed local zone offset. -/

/-- A local calendar date-time at minute precision (month and day are
1-based, as printed by the source's `toISO`). -/
structure LocalDate where
  year : Int
  month : Nat
  day : Nat
  hour : Nat
  minute : Nat
  deriving DecidableEq, Repr

/-- Gregorian leap year. -/
def isLeap (y : Int) : Bool := (y % 4 = 0 && y % 100 ≠ 0) || y % 400 = 0

/-- Number of days in a month. -/
def daysInMonth (y : Int) (m : Nat) : Nat :=
  if m = 2 then (if isLeap y then 29 else 28)
  else if m = 4 ∨ m = 6 ∨ m = 9 ∨ m = 11 then 30 else 31

/-- Days since 1970-01-01 of a civil date (Gregorian, proleptic). -/
def daysFromCivil (y : Int) (m d : Nat) : Int :=
  let y' : Int := if m ≤ 2 then y - 1 else y
  let era : Int := (if 0 ≤ y' then y' else y' - 399) / 400
  let yoe : Int := y' - era * 400
  let mp : Int := (Int.ofNat m + 9) % 12
  let doy : Int := (153 * mp + 2) / 5 + Int.ofNat d - 1
  let doe : Int := yoe * 365 + yoe / 4 - yoe / 100 + doy
  era * 146097 + doe - 719468

/-- Linearization of a `LocalDate` in minutes, used to compare instants
(JS `getTime()` comparison at a fixed local offset). -/
def toMin (t : LocalDate) : Int :=
  daysFromCivil t.year t.month t.day * 1440 + (t.hour : Int) * 60 + t.minute

/-- date-fns `setYear` (JS `setFullYear` semantics): keep month/day, and
let a day past the end of the target month overflow into the next
month. -/
def setYearD (t : LocalDate) (y : Int) : LocalDate :=
  if t.day ≤ daysInMonth y t.month then { t with year := y }
  else if t.month = 12 then
    ⟨y + 1, 1, t.day - daysInMonth y t.month, t.hour, t.minute⟩
  else
    ⟨y, t.month + 1, t.day - daysInMonth y t.month, t.hour, t.minute⟩

/-- date-fns `addYears`: add to the year and clamp the day to the target
month's length (leap-day clamping). -/
def addYearsD (t : LocalDate) (n : Int) : LocalDate :=
  { t with year := t.year + n, day := min t.day (daysInMonth (t.year + n) t.month) }

/-- JS `new Date(t.getTime() + 60*60*1000)`: one hour later, with carries. -/
def addOneHour (t : LocalDate) : LocalDate :=
  if t.hour + 1 ≤ 23 then { t with hour := t.hour + 1 }
  else if t.day + 1 ≤ daysInMonth t.year t.month then
    ⟨t.year, t.month, t.day + 1, 0, t.minute⟩
  else if t.month = 12 then ⟨t.year + 1, 1, 1, 0, t.minute⟩
  else ⟨t.year, t.month + 1, 1, 0, t.minute⟩

/-- JS `String(n).padStart(2, "0")` for the month/day/hour/minute slots. -/
def pad2 (n : Nat) : String := if n < 10 then "0" ++ toString n else toString n

/-- The source's `toISO`: `YYYY-MM-DDTHH:mm:00` local string. -/
def toISO (t : LocalDate) : String :=
  toString t.year ++ "-" ++ pad2 t.month ++ "-" ++ pad2 t.day ++ "T" ++
    pad2 t.hour ++ ":" ++ pad2 t.minute ++ ":00"

/-- Case-insensitive ASCII letter test (regex `[A-Za-z]`, and `[a-z]`
under the `/i` flag). -/
def isAsciiLetter (c : Char) : Bool :=
  ('a' ≤ c && c ≤ 'z') || ('A' ≤ c && c ≤ 'Z')

/-- Regex word character (`\w`), for `\b` boundaries. -/
def isWordCh (c : Char) : Bool := isAsciiLetter c || c.isDigit || c = '_'

/-- Case-insensitive match of a lowercase pattern as a prefix; returns the
rest of the input. -/
def matchCI : List Char → List Char → Option (List Char)
  | [], l => some l
  | _ :: _, [] => none
  | p :: ps, c :: cs => if c.toLower = p then matchCI ps cs else none

/-- First pattern of the table that matches a case-insensitive prefix
(regex alternation order). -/
def matchAnyCI (tbl : List (String × Nat)) (l : List Char) : Option (Nat × List Char) :=
  match tbl with
  | [] => none
  | (nm, v) :: rest =>
    match matchCI nm.data l with
    | some r => some (v, r)
    | none => matchAnyCI rest l

/-- date-fns en-US wide month names (`MMMM`, first attempt). -/
def monthsWide : List (String × Nat) :=
  [("january", 1), ("february", 2), ("march", 3), ("april", 4), ("may", 5),
   ("june", 6), ("july", 7), ("august", 8), ("september", 9), ("october", 10),
   ("november", 11), ("december", 12)]

/-- date-fns en-US abbreviated month names (`MMMM` fallback). -/
def monthsAbbr : List (String × Nat) :=
  [("jan", 1), ("feb", 2), ("mar", 3), ("apr", 4), ("may", 5), ("jun", 6),
   ("jul", 7), ("aug", 8), ("sep", 9), ("oct", 10), ("nov", 11), ("dec", 12)]

/-- The `MMMM` month matcher: wide names first, then abbreviations,
case-insensitively. -/
def parseMonth (l : List Char) : Option (Nat × List Char) :=
  match matchAnyCI monthsWide l with
  | some r => some r
  | none => matchAnyCI monthsAbbr l

/-- date-fns `parse(str, "MMMM d h:mma", ref)`, modelled for the strings
this code builds (`"<month> <day> <h:mm(AM|PM)>"`).  Unparsed higher units
come from the reference date (only its year is consulted), lower units are
reset; day is validated against the month, hour against 1–12, minutes
against 0–59; the `a` matcher requires the AM/PM marker to follow the
minutes immediately; leftover input invalidates the parse. -/
def parseMDhma (l : List Char) (refYear : Int) : Option LocalDate :=
  match parseMonth l with
  | none => none
  | some (m, r1) =>
    match r1 with
    | ' ' :: r2 =>
      let ds := (r2.takeWhile Char.isDigit).take 2
      if ds = [] then none
      else
        let day := ds.foldl (fun a c => a * 10 + (c.toNat - 48)) 0
        if 1 ≤ day ∧ day ≤ daysInMonth refYear m then
          match r2.drop ds.length with
          | ' ' :: r3 =>
            let hs := (r3.takeWhile Char.isDigit).take 2
            if hs = [] then none
            else
              let hr := hs.foldl (fun a c => a * 10 + (c.toNat - 48)) 0
              if 1 ≤ hr ∧ hr ≤ 12 then
                match r3.drop hs.length with
                | ':' :: r4 =>
                  let ms := (r4.takeWhile Char.isDigit).take 2
                  if ms.length = 2 then
                    let mins := ms.foldl (fun a c => a * 10 + (c.toNat - 48)) 0
                    if mins ≤ 59 then
                      match r4.drop 2 with
                      | a :: mm :: r5 =>
                        if (a.toLower = 'a' ∨ a.toLower = 'p') ∧ mm.toLower = 'm' ∧ r5 = [] then
                          let hour24 := if a.toLower = 'p' then hr % 12 + 12 else hr % 12
                          some ⟨refYear, m, day, hour24, mins⟩
                        else none
                      | _ => none
                    else none
                  else none
                | _ => none
              else none
          | _ => none
        else none
    | _ => none

/-- The three-letter weekday alternation of the subject regex. -/
def weekdays3 : List (String × Nat) :=
  [("mon", 0), ("tue", 0), ("wed", 0), ("thu", 0), ("fri", 0), ("sat", 0), ("sun", 0)]

/-- The optional weekday group `(?:\b(?:Mon|…|Sun)[a-z]*,\s+)?` at the
current position (`prev` is the character before it, for `\b`). -/
def tryWeekdayTag (prev : Option Char) (l : List Char) : Option (List Char) :=
  let boundary := match prev with | none => true | some p => !isWordCh p
  if boundary then
    match matchAnyCI weekdays3 l with
    | some (_, r1) =>
      match r1.dropWhile isAsciiLetter with
      | ',' :: r3 =>
        match r3 with
        | c :: _ => if isJsWhitespace c then some (r3.dropWhile isJsWhitespace) else none
        | [] => none
      | _ => none
    | none => none
  else none

/-- The time sub-pattern `\d{1,2}:\d{2}\s*[AP]M` (under `/i`): returns the
matched text and the rest. -/
def parseTimeTok (l : List Char) : Option (List Char × List Char) :=
  let ds := l.takeWhile Char.isDigit
  if ds.length = 1 ∨ ds.length = 2 then
    match l.drop ds.length with
    | ':' :: r2 =>
      let m2 := r2.take 2
      if m2.length = 2 ∧ m2.all Char.isDigit then
        let r3 := r2.drop 2
        let ws := r3.takeWhile isJsWhitespace
        match r3.dropWhile isJsWhitespace with
        | a :: mm :: rest =>
          if (a.toLower = 'a' ∨ a.toLower = 'p') ∧ mm.toLower = 'm' then
            some (ds ++ ':' :: m2 ++ ws ++ [a, mm], rest)
          else none
        | _ => none
      else none
    | _ => none
  else none

/-- The body of the subject regex after the optional weekday:
`([A-Za-z]+)\s+(\d{1,2}),?\s+(time)\s*-\s*(time)\b`; returns the four
capture groups. -/
def tryCore (l : List Char) : Option (List Char × List Char × List Char × List Char) :=
  let mon := l.takeWhile isAsciiLetter
  if mon = [] then none
  else
    match l.drop mon.length with
    | c1 :: r1 =>
      if isJsWhitespace c1 then
        let r2 := (c1 :: r1).dropWhile isJsWhitespace
        let ds := r2.takeWhile Char.isDigit
        if ds.length = 1 ∨ ds.length = 2 then
          let r3 := r2.drop ds.length
          let r4 := match r3 with | ',' :: t => t | _ => r3
          match r4 with
          | c2 :: _ =>
            if isJsWhitespace c2 then
              match parseTimeTok (r4.dropWhile isJsWhitespace) with
              | some (t1, r6) =>
                match r6.dropWhile isJsWhitespace with
                | '-' :: r8 =>
                  match parseTimeTok (r8.dropWhile isJsWhitespace) with
                  | some (t2, r10) =>
                    if (match r10.head? with | none => true | some c => !isWordCh c) then
                      some (mon, ds, t1, t2)
                    else none
                  | none => none
                | _ => none
              | none => none
            else none
          | [] => none
        else none
      else none
    | [] => none

/-- One attempt of the full subject regex at the current position: the
optional weekday group greedily first, then without it. -/
def tryAt (allowWd : Bool) (prev : Option Char) (l : List Char) :
    Option (List Char × List Char × List Char × List Char) :=
  match (if allowWd then (tryWeekdayTag prev l).bind tryCore else none) with
  | some caps => some caps
  | none => tryCore l

/-- Leftmost match of the subject regex: try every start position from the
left (`allowWd` distinguishes the weekday-ful regex from the fallback
regex without the weekday group). -/
def scanSubject (allowWd : Bool) : Option Char → List Char →
    Option (List Char × List Char × List Char × List Char)
  | _, [] => none
  | prev, c :: rest =>
    match tryAt allowWd prev (c :: rest) with
    | some caps => some caps
    | none => scanSubject allowWd (some c) rest

/-- Lines 34–36 of `subjectTime.ts`: pin the parsed start to the current
year (`setYear`), and roll it forward one year when it is already in the
past relative to `now` (`isBefore` + `addYears`). -/
def rollStart (startBase : LocalDate) (now : LocalDate) : LocalDate :=
  let start0 := setYearD startBase now.year
  if toMin start0 < toMin now then addYearsD start0 1 else start0

/-- Lines 38–42 of `subjectTime.ts`: align the parsed end's year with the
start's, and default the duration to one hour when the end is not strictly
after the start. -/
def endAdjust (e0 start : LocalDate) : LocalDate :=
  let e1 := setYearD e0 start.year
  if toMin e1 ≤ toMin start then addOneHour start else e1

/-- Function `parseSubjectDateRange` from `utils/subjectTime.ts`: normalize
en/em-dashes, match the range pattern (weekday-ful regex first, then the
fallback), parse `"<month> <day> <time>"` with the current year, roll the
start forward a year when it is already past `now` (`rollStart`), align
the end via `endAdjust`, and print local second-precision strings.  An
invalid end parse keeps JS's `Invalid Date` printing (`"NaN-…"`), which
the happy path never reaches. -/
def parseSubjectDateRange (subject : String) (now : LocalDate) :
    Option (String × String) :=
  let s := subject.data.map
    (fun c => if c.toNat = 0x2013 ∨ c.toNat = 0x2014 then '-' else c)
  let m :=
    match scanSubject true none s with
    | some caps => some caps
    | none => scanSubject false none s
  match m with
  | none => none
  | some (mon, ds, t1, t2) =>
    match parseMDhma (mon ++ ' ' :: ds ++ ' ' :: t1) now.year with
    | none => none
    | some startBase =>
      let start := rollStart startBase now
      match parseMDhma (mon ++ ' ' :: ds ++ ' ' :: t2) now.year with
      | some e0 => some (toISO start, toISO (endAdjust e0 start))
      | none => some (toISO start, "NaN-NaN-NaNTNaN:NaN:00")

/-! ### Concrete instances used by counterexamples and witnesses -/

/-- A `Date.parse` oracle on which no string parses (consistent with JS on
the strings it is applied to below, e.g. `Date.parse("garbage") = NaN`). -/
def dateParseNone : String → Option Int := fun _ => none

/-- A `Date.parse` oracle for two fixed ISO instants, with their real JS
millisecond values (`2025-01-01T10:00:00Z` and `2025-01-01T11:00:00Z`). -/
def dateParseSample : String → Option Int := fun s =>
  if s = "2025-01-01T10:00:00Z" then some 1735725600000
  else if s = "2025-01-01T11:00:00Z" then some 1735729200000
  else none

/-- A raw model response: a bare JSON object whose single event has the
non-empty but unparseable start `"garbage"`. -/
def rawC1 : String :=
  "\x7b\"events\":[\x7b\"title\":\"Team sync\",\"start\":\"garbage\"\x7d]\x7d"

/-- The payload `JSON.parse` + zod validation yields for `rawC1`. -/
def payloadC1 : LlmOut := ⟨[⟨"Team sync", some "garbage", none, none, none⟩], none⟩

/-- Oracle for `JSON.parse` + zod validation that accepts exactly `rawC1`. -/
def parseC1 : String → Option LlmOut :=
  fun s => if s = rawC1 then some payloadC1 else none

/-- A payload whose single event carries parseable start and end. -/
def payloadC2 : LlmOut :=
  ⟨[⟨"Standup", some "2025-01-01T10:00:00Z", some "2025-01-01T11:00:00Z",
     none, none⟩], none⟩

/-- A schema-valid payload with an empty events array. -/
def payloadEmpty : LlmOut := ⟨[], none⟩

/-- The subject line of the spec's worked example. -/
def subjC6 : String :=
  "Friday, August 29, 01:00PM - 02:00PM (EDT - America/Port-au-Prince)"

/-- The fenced-code-block raw model output of the spec's worked example. -/
def fencedSample : String :=
  "```json\n\x7b\"events\":[],\"warnings\":[]\x7d\n```"

/-- The JSON object `extractJsonBlock` must recover from `fencedSample`. -/
def jsonSample : String := "\x7b\"events\":[],\"warnings\":[]\x7d"

/-- Left half of `jsTrimList`. -/
def trimLeftL (l : List Char) : List Char := l.dropWhile isJsWhitespace

/-- Right half of `jsTrimList`. -/
def trimRightL (l : List Char) : List Char :=
  (l.reverse.dropWhile isJsWhitespace).reverse

/-! ### Helper lemmas -/

theorem jsTrimList_eq (l : List Char) : jsTrimList l = trimRightL (trimLeftL l) := rfl

theorem dw_head_false (p : Char → Bool) (l : List Char) :
    ∀ a, (l.dropWhile p).head? = some a → p a = false := by
  induction l with
  | nil => intro a h; simp [List.dropWhile] at h
  | cons c cs ih =>
    intro a h
    by_cases hc : p c
    · rw [List.dropWhile_cons, if_pos hc] at h
      exact ih a h
    · rw [List.dropWhile_cons, if_neg hc] at h
      simp at h
      rw [← h]
      exact Bool.eq_false_iff.mpr hc

theorem dw_eq_self (p : Char → Bool) (l : List Char)
    (h : ∀ a, l.head? = some a → p a = false) : l.dropWhile p = l := by
  cases l with
  | nil => rfl
  | cons c cs =>
    rw [List.dropWhile_cons, h c rfl]
    simp

theorem dw_idem (p : Char → Bool) (l : List Char) :
    (l.dropWhile p).dropWhile p = l.dropWhile p :=
  dw_eq_self _ _ (dw_head_false p l)

theorem dw_suffix (p : Char → Bool) (l : List Char) :
    ∃ t, l = t ++ l.dropWhile p := by
  induction l with
  | nil => exact ⟨[], rfl⟩
  | cons c cs ih =>
    by_cases hc : p c
    · obtain ⟨t, ht⟩ := ih
      exact ⟨c :: t, by rw [List.dropWhile_cons, if_pos hc, List.cons_append, ← ht]⟩
    · exact ⟨[], by rw [List.dropWhile_cons, if_neg hc, List.nil_append]⟩

theorem trimRightL_idem (l : List Char) : trimRightL (trimRightL l) = trimRightL l := by
  unfold trimRightL
  rw [List.reverse_reverse, dw_idem]

theorem trimLeft_of_trimmed (l : List Char) :
    trimLeftL (trimRightL (trimLeftL l)) = trimRightL (trimLeftL l) := by
  apply dw_eq_self
  intro a ha
  obtain ⟨t, ht⟩ := dw_suffix isJsWhitespace (trimLeftL l).reverse
  have hu : trimLeftL l = trimRightL (trimLeftL l) ++ t.reverse := by
    conv_lhs => rw [← List.reverse_reverse (trimLeftL l), ht]
    rw [List.reverse_append]
    rfl
  have hhead : (trimLeftL l).head? = some a := by
    rw [hu]
    cases htr : trimRightL (trimLeftL l) with
    | nil => rw [htr] at ha; simp at ha
    | cons b bs =>
      rw [htr] at ha
      simp at ha
      rw [List.cons_append]
      simp [ha]
  exact dw_head_false isJsWhitespace l a hhead

theorem jsTrimList_idem (l : List Char) :
    jsTrimList (jsTrimList l) = jsTrimList l := by
  rw [jsTrimList_eq l, jsTrimList_eq (trimRightL (trimLeftL l)),
    trimLeft_of_trimmed, trimRightL_idem]

theorem mem_dw (p : Char → Bool) (l : List Char) (c : Char)
    (h : c ∈ l.dropWhile p) : c ∈ l := by
  obtain ⟨t, ht⟩ := dw_suffix p l
  rw [ht]
  exact List.mem_append.mpr (Or.inr h)

theorem mem_jsTrimList (c : Char) (l : List Char) (h : c ∈ jsTrimList l) : c ∈ l := by
  unfold jsTrimList at h
  have h1 := List.mem_reverse.mp h
  have h2 := mem_dw _ _ _ h1
  have h3 := List.mem_reverse.mp h2
  exact mem_dw _ _ _ h3

theorem replaceCR_no_cr (l : List Char) : '\r' ∉ replaceCR l := by
  induction l using replaceCR.induct with
  | case1 => simp [replaceCR]
  | case2 rest ih =>
    intro h
    rw [show replaceCR ('\r' :: '\n' :: rest) = '\n' :: replaceCR rest from rfl] at h
    rcases List.mem_cons.mp h with h1 | h2
    · exact absurd h1 (by decide)
    · exact ih h2
  | case3 rest h2 ih =>
    intro h
    rw [show replaceCR ('\r' :: rest) = '\n' :: replaceCR rest from ?_] at h
    · rcases List.mem_cons.mp h with h1 | h3
      · exact absurd h1 (by decide)
      · exact ih h3
    · cases rest with
      | nil => rfl
      | cons d ds =>
        have hd : d ≠ '\n' := by
          intro hdn
          exact h2 ds (by rw [hdn])
        simp [replaceCR, hd]
  | case4 c rest h1 h2 ih =>
    intro h
    have hc : c ≠ '\r' := h2
    rw [show replaceCR (c :: rest) = c :: replaceCR rest from ?_] at h
    · rcases List.mem_cons.mp h with h3 | h4
      · exact hc h3.symm
      · exact ih h4
    · cases rest with
      | nil => simp [replaceCR, hc]
      | cons d ds =>
        by_cases hd : d = '\n'
        · subst hd; simp [replaceCR, hc]
        · simp [replaceCR, hc, hd]

theorem replaceCR_eq_self (l : List Char) (h : '\r' ∉ l) : replaceCR l = l := by
  induction l with
  | nil => rfl
  | cons c cs ih =>
    have hc : c ≠ '\r' := fun hcr => h (by rw [hcr]; exact List.mem_cons_self _ _)
    have hcs : '\r' ∉ cs := fun hm => h (List.mem_cons_of_mem _ hm)
    cases cs with
    | nil => simp [replaceCR, hc]
    | cons d ds =>
      by_cases hd : d = '\n'
      · subst hd
        rw [show replaceCR (c :: '\n' :: ds) = c :: replaceCR ('\n' :: ds) from by
          simp [replaceCR, hc]]
        rw [ih hcs]
      · rw [show replaceCR (c :: d :: ds) = c :: replaceCR (d :: ds) from by
          simp [replaceCR, hc, hd]]
        rw [ih hcs]

theorem mem_replaceTab (c : Char) (l : List Char) (h : c ∈ replaceTab l) :
    c ∈ l ∨ c = ' ' := by
  induction l with
  | nil => simp [replaceTab] at h
  | cons d ds ih =>
    by_cases hd : d = '\t'
    · subst hd
      rw [show replaceTab ('\t' :: ds) = ' ' :: ' ' :: replaceTab ds from rfl] at h
      rcases List.mem_cons.mp h with h1 | h2
      · exact Or.inr h1
      · rcases List.mem_cons.mp h2 with h3 | h4
        · exact Or.inr h3
        · rcases ih h4 with h5 | h6
          · exact Or.inl (List.mem_cons_of_mem _ h5)
          · exact Or.inr h6
    · rw [show replaceTab (d :: ds) = d :: replaceTab ds from by simp [replaceTab, hd]] at h
      rcases List.mem_cons.mp h with h1 | h2
      · exact Or.inl (by rw [h1]; exact List.mem_cons_self _ _)
      · rcases ih h2 with h5 | h6
        · exact Or.inl (List.mem_cons_of_mem _ h5)
        · exact Or.inr h6

theorem replaceTab_no_tab (l : List Char) : '\t' ∉ replaceTab l := by
  induction l with
  | nil => simp [replaceTab]
  | cons d ds ih =>
    by_cases hd : d = '\t'
    · subst hd
      intro h
      rw [show replaceTab ('\t' :: ds) = ' ' :: ' ' :: replaceTab ds from rfl] at h
      rcases List.mem_cons.mp h with h1 | h2
      · exact absurd h1 (by decide)
      · rcases List.mem_cons.mp h2 with h3 | h4
        · exact absurd h3 (by decide)
        · exact ih h4
    · intro h
      rw [show replaceTab (d :: ds) = d :: replaceTab ds from by simp [replaceTab, hd]] at h
      rcases List.mem_cons.mp h with h1 | h2
      · exact hd h1.symm
      · exact ih h2

theorem replaceTab_eq_self (l : List Char) (h : '\t' ∉ l) : replaceTab l = l := by
  induction l with
  | nil => rfl
  | cons c cs ih =>
    have hc : c ≠ '\t' := fun hct => h (by rw [hct]; exact List.mem_cons_self _ _)
    have hcs : '\t' ∉ cs := fun hm => h (List.mem_cons_of_mem _ hm)
    rw [show replaceTab (c :: cs) = c :: replaceTab cs from by simp [replaceTab, hc]]
    rw [ih hcs]

/-! ### Claim theorems -/

/-- C9: the text normalizer is idempotent — for every string `x`,
`normalizeText (normalizeText x) = normalizeText x`. -/
theorem C9_normalizeText_idempotent (s : String) :
    normalizeText (normalizeText s) = normalizeText s := by
  have hcr : '\r' ∉ jsTrimList (replaceTab (replaceCR s.data)) := by
    intro h
    rcases mem_replaceTab _ _ (mem_jsTrimList _ _ h) with h1 | h2
    · exact replaceCR_no_cr _ h1
    · exact absurd h2 (by decide)
  have htab : '\t' ∉ jsTrimList (replaceTab (replaceCR s.data)) :=
    fun h => replaceTab_no_tab _ (mem_jsTrimList _ _ h)
  show (⟨jsTrimList (replaceTab (replaceCR (normalizeText s).data))⟩ : String)
    = normalizeText s
  rw [show (normalizeText s).data = jsTrimList (replaceTab (replaceCR s.data)) from rfl]
  rw [replaceCR_eq_self _ hcr, replaceTab_eq_self _ htab, jsTrimList_idem]
  rfl

/-- C7: for every requested `budgetMs` (zero, negative, absent or huge),
the effective timeout used by `extractLLM` lies in `[1000, 20000]` ms,
defaults to `6000` when absent, and out-of-range values are silently
clamped (here visible in the `LLM_TIMEOUT` warning the clamped value is
embedded in), never rejected. -/
theorem C7_budget_clamped :
    (∀ b : Option Int, 1000 ≤ effTimeoutMs b ∧ effTimeoutMs b ≤ 20000) ∧
    effTimeoutMs none = 6000 ∧
    (∀ dp pf jok (li : LlmInput), jsTrim (li.text.getD "") ≠ "" →
      extractLLM dp pf jok .abortError li =
        ⟨[], true, some [⟨"LLM_TIMEOUT",
          "llm timeout after " ++ toString (effTimeoutMs li.budgetMs) ++ "ms"⟩]⟩) := by
  refine ⟨fun b => ?_, by decide, fun dp pf jok li h => ?_⟩
  · unfold effTimeoutMs clampPositive
    exact ⟨le_max_left _ _, max_le (by norm_num) (min_le_right _ _)⟩
  · simp [extractLLM, h]

/-- C7 witness: a requested budget of `0` is clamped into range, and an
aborted call reports the clamped budget of `1000` ms. -/
theorem C7_budget_clamped_witness :
    (1000 ≤ effTimeoutMs (some 0) ∧ effTimeoutMs (some 0) ≤ 20000) ∧
    extractLLM dateParseNone (fun _ => none) (fun _ => false) .abortError
      ⟨some "meet", none, "America/Toronto", none, some 0, none⟩ =
      ⟨[], true, some [⟨"LLM_TIMEOUT", "llm timeout after 1000ms"⟩]⟩ :=
  ⟨C7_budget_clamped.1 (some 0),
   (C7_budget_clamped.2.2 _ _ _ _ (by decide)).trans (by decide)⟩

/-- C3: for every input whose trimmed text is empty (absent, empty, or
whitespace only), `extractRules` returns no events, `degraded = false`
and the single warning `EMPTY_TEXT`, while `extractLLM` returns no
events, `degraded = true` and the single warning `EMPTY_TEXT`. -/
theorem C3_empty_text_paths :
    (∀ dp pd (ri : RulesInput), jsTrim (ri.text.getD "") = "" →
      extractRules dp pd ri = ⟨[], false, some [⟨"EMPTY_TEXT", "empty text"⟩]⟩) ∧
    (∀ dp pf jok oc (li : LlmInput), jsTrim (li.text.getD "") = "" →
      extractLLM dp pf jok oc li = ⟨[], true, some [⟨"EMPTY_TEXT", "empty text"⟩]⟩) := by
  constructor
  · intro dp pd ri h
    simp [extractRules, h]
  · intro dp pf jok oc li h
    simp [extractLLM, h]

/-- C3 witness: an absent text on the rules path, and a whitespace-only
text on the LLM path. -/
theorem C3_empty_text_paths_witness :
    extractRules dateParseNone (fun _ _ => []) ⟨none, none, "America/Toronto", none⟩ =
      ⟨[], false, some [⟨"EMPTY_TEXT", "empty text"⟩]⟩ ∧
    extractLLM dateParseNone (fun _ => none) (fun _ => false) (.ok "x")
      ⟨some "   ", none, "America/Toronto", none, none, none⟩ =
      ⟨[], true, some [⟨"EMPTY_TEXT", "empty text"⟩]⟩ :=
  ⟨C3_empty_text_paths.1 _ _ _ (by decide),
   C3_empty_text_paths.2 _ _ _ _ _ (by decide)⟩

theorem jsGeB_iff (a b : Option Int) :
    jsGeB a b = true ↔ ∃ x y, a = some x ∧ b = some y ∧ y ≤ x := by
  cases a with
  | none => simp [jsGeB]
  | some x =>
    cases b with
    | none => simp [jsGeB]
    | some y => simp [jsGeB, ge_iff_le]

theorem sanitize_end_prop (dp : String → Option Int) (a : LlmEvent) (tz : String)
    (e : EventLite) (h : sanitizeEvent dp a tz = some e) (t : String)
    (ht : e.end_ = some t) :
    ∃ x y, dp t = some x ∧ dp e.start = some y ∧ y ≤ x := by
  unfold sanitizeEvent at h
  cases hs : a.start with
  | none => rw [hs] at h; exact absurd h (by simp)
  | some s =>
    rw [hs] at h
    dsimp only at h
    by_cases hse : s = ""
    · rw [if_pos hse] at h; exact absurd h (by simp)
    · rw [if_neg hse] at h
      have he2 := (Option.some.inj h).symm
      subst he2
      dsimp only [asISO] at ht ⊢
      cases hend : a.end_ with
      | none =>
        rw [hend] at ht
        exact absurd ht (by simp)
      | some u =>
        rw [hend] at ht
        dsimp only at ht
        by_cases hcond : (u ≠ "" ∧ jsGeB (dp u) (dp s) = true)
        · rw [if_pos hcond] at ht
          have htu := Option.some.inj ht
          subst htu
          exact (jsGeB_iff _ _).mp hcond.2
        · rw [if_neg hcond] at ht
          exact absurd ht (by simp)

/-- C1 counterexample: a schema-valid candidate whose `start` is the
non-empty but unparseable string `"garbage"` is *not* dropped by the
sanitization step of `extractLLM`: the returned event carries the
unparseable start verbatim (the claim says such a candidate contributes
no event). -/
theorem C1_counterexample :
    (extractLLM dateParseNone parseC1 (fun _ => false) (.ok rawC1)
        ⟨some "meet tomorrow", none, "America/Toronto", none, none, none⟩).events =
      [⟨"Team sync", "garbage", none, some false, "America/Toronto", "llm", (3/5 : Rat)⟩] ∧
    dateParseNone "garbage" = none :=
  ⟨rfl, rfl⟩

/-- C1 (amended): for a schema-valid candidate (whose `start` is never the
empty string), the sanitization step of `extractLLM` drops it exactly when
`start` is absent or null; a candidate with any non-empty `start` string —
parseable as a date or not — is kept, with that start returned verbatim. -/
theorem C1_sanitize_drop_iff_falsy_start
    (dp : String → Option Int) (e : LlmEvent) (tz : String)
    (hne : e.start ≠ some "") :
    (sanitizeEvent dp e tz = none ↔ e.start = none) ∧
    (∀ s, e.start = some s →
      ∃ ev, sanitizeEvent dp e tz = some ev ∧ ev.start = s) := by
  cases hs : e.start with
  | none => simp [sanitizeEvent, hs]
  | some s =>
    have hs' : s ≠ "" := fun h => hne (by rw [hs, h])
    constructor
    · simp [sanitizeEvent, hs, hs']
    · intro s2 hss
      have h2 := Option.some.inj hss
      subst h2
      unfold sanitizeEvent
      rw [hs]
      dsimp only
      rw [if_neg hs']
      exact ⟨_, rfl, rfl⟩

/-- C1 witness: a candidate with absent `start` is indeed dropped. -/
theorem C1_sanitize_drop_iff_falsy_start_witness :
    sanitizeEvent dateParseNone ⟨"Call", none, none, none, none⟩ "UTC" = none :=
  (C1_sanitize_drop_iff_falsy_start dateParseNone
    ⟨"Call", none, none, none, none⟩ "UTC" (by decide)).1.mpr rfl

/-- C2: for every event returned by `extractRules` and every event
returned by `extractLLM`, a defined `end` implies that `Date.parse`
succeeds on both `end` and `start` and `parse(end) ≥ parse(start)`
(violating candidates were dropped or had `end` cleared, so no surviving
event breaks the invariant). -/
theorem C2_end_ge_start :
    (∀ dp pd (ri : RulesInput) e, e ∈ (extractRules dp pd ri).events →
      ∀ t, e.end_ = some t →
        ∃ x y, dp t = some x ∧ dp e.start = some y ∧ y ≤ x) ∧
    (∀ dp pf jok oc (li : LlmInput) e, e ∈ (extractLLM dp pf jok oc li).events →
      ∀ t, e.end_ = some t →
        ∃ x y, dp t = some x ∧ dp e.start = some y ∧ y ≤ x) := by
  constructor
  · intro dp pd ri e he t ht
    by_cases hr : jsTrim (ri.text.getD "") = ""
    · simp [extractRules, hr] at he
    · unfold extractRules at he
      rw [if_neg hr] at he
      have hq := (List.mem_filter.mp he).2
      simp only [ht] at hq
      exact (jsGeB_iff _ _).mp hq
  · intro dp pf jok oc li e he t ht
    by_cases hr : jsTrim (li.text.getD "") = ""
    · simp [extractLLM, hr] at he
    · cases oc with
      | abortError => simp [extractLLM, hr] at he
      | otherError m => simp [extractLLM, hr] at he
      | ok resp =>
        unfold extractLLM at he
        rw [if_neg hr] at he
        dsimp only at he
        cases hp : pf (extractJsonBlock jok resp) with
        | none => rw [hp] at he; simp at he
        | some parsed =>
          rw [hp] at he
          dsimp only at he
          obtain ⟨a, _, hsan⟩ := List.mem_filterMap.mp he
          exact sanitize_end_prop dp a li.timezone e hsan t ht

/-- C2 witness: a rules-path event with a defined end, produced from one
parseable chrono hit, satisfies the invariant. -/
theorem C2_end_ge_start_witness :
    ∃ x y, dateParseSample "2025-01-01T11:00:00Z" = some x ∧
      dateParseSample "2025-01-01T10:00:00Z" = some y ∧ y ≤ x :=
  C2_end_ge_start.1 dateParseSample
    (fun _ _ => [⟨"2025-01-01T10:00:00Z", some "2025-01-01T11:00:00Z", 0⟩])
    ⟨some "Standup", none, "America/Toronto", none⟩
    ⟨"Untitled", "2025-01-01T10:00:00Z", some "2025-01-01T11:00:00Z", none,
      "America/Toronto", "rules", (3/4 : Rat)⟩
    (by exact List.Mem.head _) "2025-01-01T11:00:00Z" rfl

/-- C4: `extractSmart` (the LLM-only selection policy) forces
`degraded = true` and appends a `NO_RETURN_EVENT` warning to the LLM
path's warnings exactly when the LLM path returned zero events without
being marked degraded; otherwise it returns the LLM path's result
unchanged. -/
theorem C4_smart_llm_only_marking :
    (∀ dp pf jok oc (si : SmartInput),
      (extractLLM dp pf jok oc (toLlmInput si)).events = [] →
      (extractLLM dp pf jok oc (toLlmInput si)).degraded = false →
        extractSmart dp pf jok oc si =
          { extractLLM dp pf jok oc (toLlmInput si) with
            degraded := true
            warnings := some ((extractLLM dp pf jok oc (toLlmInput si)).warnings.getD [] ++
              [⟨"NO_RETURN_EVENT", "LLM returned 0 events"⟩]) }) ∧
    (∀ dp pf jok oc (si : SmartInput),
      ((extractLLM dp pf jok oc (toLlmInput si)).events ≠ [] ∨
       (extractLLM dp pf jok oc (toLlmInput si)).degraded = true) →
        extractSmart dp pf jok oc si = extractLLM dp pf jok oc (toLlmInput si)) := by
  constructor
  · intro dp pf jok oc si h1 h2
    unfold extractSmart
    rw [if_pos ⟨h1, h2⟩]
  · intro dp pf jok oc si h
    unfold extractSmart
    rw [if_neg ?_]
    intro hand
    rcases h with h1 | h2
    · exact h1 hand.1
    · rw [h2] at hand
      exact absurd hand.2 (by decide)

/-- C4 witness: a schema-valid payload with an empty events array yields a
non-degraded zero-event LLM result, which `extractSmart` annotates with
`NO_RETURN_EVENT`. -/
theorem C4_smart_llm_only_marking_witness :
    extractSmart dateParseNone (fun _ => some payloadEmpty) (fun _ => false)
        (.ok "\x7b\"events\":[]\x7d")
        ⟨some "meet", none, "America/Toronto", none, none, none⟩ =
      ⟨[], true, some [⟨"LLM_OK", "llm success"⟩,
        ⟨"NO_RETURN_EVENT", "LLM returned 0 events"⟩]⟩ :=
  (C4_smart_llm_only_marking.1 dateParseNone (fun _ => some payloadEmpty)
      (fun _ => false) (.ok "\x7b\"events\":[]\x7d")
      ⟨some "meet", none, "America/Toronto", none, none, none⟩ rfl rfl).trans rfl

/-- C5: `extractLLM` returns exactly the degraded `LLM_BAD_JSON` result
precisely when the call returned a response whose extracted JSON block
fails parsing or schema validation (and the input text was non-empty);
a schema-valid payload whose events merely lack a usable start instead
yields the non-degraded `LLM_OK` result with zero events. -/
theorem C5_bad_json_iff_parse_failure :
    (∀ dp pf jok oc (li : LlmInput),
      (extractLLM dp pf jok oc li =
        ⟨[], true, some [⟨"LLM_BAD_JSON", "llm bad json/schema"⟩]⟩) ↔
      (jsTrim (li.text.getD "") ≠ "" ∧
        ∃ resp, oc = LlmOutcome.ok resp ∧ pf (extractJsonBlock jok resp) = none)) ∧
    (∀ dp pf jok (li : LlmInput) resp payload,
      jsTrim (li.text.getD "") ≠ "" →
      pf (extractJsonBlock jok resp) = some payload →
      (∀ e ∈ payload.events, e.start = none) →
      extractLLM dp pf jok (.ok resp) li =
        ⟨[], false, some [⟨"LLM_OK", "llm success"⟩]⟩) := by
  constructor
  · intro dp pf jok oc li
    by_cases hr : jsTrim (li.text.getD "") = ""
    · constructor
      · intro h
        simp [extractLLM, hr] at h
      · rintro ⟨h1, -⟩
        exact absurd hr h1
    · cases oc with
      | ok resp =>
        cases hp : pf (extractJsonBlock jok resp) with
        | none =>
          constructor
          · intro _
            exact ⟨hr, resp, rfl, hp⟩
          · intro _
            unfold extractLLM
            rw [if_neg hr]
            dsimp only
            rw [hp]
        | some parsed =>
          constructor
          · intro h
            unfold extractLLM at h
            rw [if_neg hr] at h
            dsimp only at h
            rw [hp] at h
            dsimp only at h
            simp [ExtractionResult.mk.injEq] at h
          · rintro ⟨-, resp2, hoc, hp2⟩
            injection hoc with hre
            rw [← hre] at hp2
            rw [hp] at hp2
            exact absurd hp2 (by simp)
      | abortError =>
        constructor
        · intro h
          simp [extractLLM, hr] at h
        · rintro ⟨-, resp, hoc, -⟩
          simp at hoc
      | otherError m =>
        constructor
        · intro h
          simp [extractLLM, hr] at h
        · rintro ⟨-, resp, hoc, -⟩
          simp at hoc
  · intro dp pf jok li resp payload hr hp hstart
    unfold extractLLM
    rw [if_neg hr]
    dsimp only
    rw [hp]
    dsimp only
    have hnil : payload.events.filterMap (fun e => sanitizeEvent dp e li.timezone) = [] := by
      rw [List.filterMap_eq_nil_iff]
      intro a ha
      have hne := hstart a ha
      unfold sanitizeEvent
      rw [hne]
    rw [hnil]

/-- C5 witness: a response that fails JSON parsing produces exactly the
degraded `LLM_BAD_JSON` result. -/
theorem C5_bad_json_iff_parse_failure_witness :
    extractLLM dateParseNone (fun _ => none) (fun _ => false) (.ok "not json")
      ⟨some "meet", none, "America/Toronto", none, none, none⟩ =
      ⟨[], true, some [⟨"LLM_BAD_JSON", "llm bad json/schema"⟩]⟩ :=
  (C5_bad_json_iff_parse_failure.1 dateParseNone (fun _ => none) (fun _ => false)
      _ _).mpr ⟨by decide, "not json", rfl, rfl⟩

/-- C8: `extractJsonBlock` recovers the JSON object from a fenced code
block (the worked example), and in general follows the recovery order:
a trimmed input that is a bare object (starts `{`, ends `}`) is returned
verbatim; else the trimmed contents of a fenced block; else the
first-`{`-to-last-`}` slice exactly when it parses as JSON; else the
trimmed input unchanged. -/
theorem C8_extractJsonBlock_recovery :
    (∀ jok, extractJsonBlock jok fencedSample = jsonSample) ∧
    (∀ (jok : String → Bool) (s : String),
      ((jsTrim s).data.head? = some lbrace ∧ (jsTrim s).data.getLast? = some rbrace →
        extractJsonBlock jok s = jsTrim s) ∧
      (¬((jsTrim s).data.head? = some lbrace ∧ (jsTrim s).data.getLast? = some rbrace) →
        ∀ mid, fenceSearch (jsTrim s).data = some mid →
          extractJsonBlock jok s = ⟨jsTrimList mid⟩) ∧
      (¬((jsTrim s).data.head? = some lbrace ∧ (jsTrim s).data.getLast? = some rbrace) →
        fenceSearch (jsTrim s).data = none →
        ∀ f l, idxOfChar lbrace (jsTrim s).data = some f →
          lastIdxOfChar rbrace (jsTrim s).data = some l → f < l →
          extractJsonBlock jok s =
            (if jok ⟨jsTrimList (sliceList (jsTrim s).data f (l + 1))⟩
             then ⟨jsTrimList (sliceList (jsTrim s).data f (l + 1))⟩
             else jsTrim s)) ∧
      (¬((jsTrim s).data.head? = some lbrace ∧ (jsTrim s).data.getLast? = some rbrace) →
        fenceSearch (jsTrim s).data = none →
        (idxOfChar lbrace (jsTrim s).data = none ∨
         lastIdxOfChar rbrace (jsTrim s).data = none ∨
         (∀ f l, idxOfChar lbrace (jsTrim s).data = some f →
            lastIdxOfChar rbrace (jsTrim s).data = some l → ¬ f < l)) →
        extractJsonBlock jok s = jsTrim s)) := by
  constructor
  · intro jok
    rfl
  · intro jok s
    refine ⟨?_, ?_, ?_, ?_⟩
    · intro h
      unfold extractJsonBlock
      dsimp only
      rw [if_pos h]
    · intro h mid hm
      unfold extractJsonBlock
      dsimp only
      rw [if_neg h, hm]
    · intro h hf f l hx hl hfl
      unfold extractJsonBlock
      dsimp only
      rw [if_neg h, hf]
      dsimp only
      rw [hx, hl]
      dsimp only
      rw [if_pos hfl]
    · intro h hf hcase
      unfold extractJsonBlock
      dsimp only
      rw [if_neg h, hf]
      dsimp only
      cases hx : idxOfChar lbrace (jsTrim s).data with
      | none => rfl
      | some f =>
        cases hl : lastIdxOfChar rbrace (jsTrim s).data with
        | none => rfl
        | some l =>
          dsimp only
          rcases hcase with hc1 | hc2 | hc3
          · rw [hx] at hc1; exact absurd hc1 (by simp)
          · rw [hl] at hc2; exact absurd hc2 (by simp)
          · rw [if_neg (hc3 f l hx hl)]

/-- C8 witness: the bare-object branch is hit for `{"a":1}` surrounded by
whitespace, and the fence branch for a prose-wrapped fenced block. -/
theorem C8_extractJsonBlock_recovery_witness :
    extractJsonBlock (fun _ => false) fencedSample = jsonSample ∧
    extractJsonBlock (fun _ => false) "  \x7b\"a\":1\x7d  " = "\x7b\"a\":1\x7d" :=
  ⟨C8_extractJsonBlock_recovery.1 (fun _ => false),
   ((C8_extractJsonBlock_recovery.2 (fun _ => false) "  \x7b\"a\":1\x7d  ").1
      (by decide)).trans (by decide)⟩

/-- C10: the result of `extractSmart` does not depend on the
caller-supplied `budgetMs` or `llmFirst` fields — any two inputs that
agree on the remaining fields (holding the external response fixed)
produce equal results, because the LLM path is always invoked with the
fixed `LLM_WAIT_MS` budget. -/
theorem C10_smart_ignores_budget_and_llmFirst :
    ∀ dp pf jok oc (a b : SmartInput),
      a.text = b.text → a.fileId = b.fileId → a.timezone = b.timezone →
      a.referenceDate = b.referenceDate →
      extractSmart dp pf jok oc a = extractSmart dp pf jok oc b := by
  intro dp pf jok oc a b h1 h2 h3 h4
  unfold extractSmart toLlmInput
  rw [h1, h2, h3, h4]

/-- C10 witness: two inputs that differ only in `budgetMs` and `llmFirst`
(and would have produced different timeout messages were the caller
budget honoured) yield identical results. -/
theorem C10_smart_ignores_budget_and_llmFirst_witness :
    extractSmart dateParseNone (fun _ => none) (fun _ => false) .abortError
        ⟨some "meet", none, "America/Toronto", none, some true, some 1⟩ =
      extractSmart dateParseNone (fun _ => none) (fun _ => false) .abortError
        ⟨some "meet", none, "America/Toronto", none, none, some 999999⟩ :=
  C10_smart_ignores_budget_and_llmFirst dateParseNone (fun _ => none) (fun _ => false)
    .abortError _ _ rfl rfl rfl rfl

/-- C6: the subject-line parser on the spec's worked example with
`now = 2025-08-01` yields the expected local ISO range, and for any `now`
in 2025 past the parsed start instant the start (and end) roll forward by
exactly one year. -/
theorem C6_subject_range :
    parseSubjectDateRange subjC6 ⟨2025, 8, 1, 0, 0⟩ =
      some ("2025-08-29T13:00:00", "2025-08-29T14:00:00") ∧
    (∀ now : LocalDate, now.year = 2025 →
      toMin ⟨2025, 8, 29, 13, 0⟩ < toMin now →
      parseSubjectDateRange subjC6 now =
        some ("2026-08-29T13:00:00", "2026-08-29T14:00:00")) := by
  constructor
  · decide
  · intro now hy hlt
    obtain ⟨ny, nm, nd, nh, nmin⟩ := now
    dsimp only at hy
    subst hy
    have key : parseSubjectDateRange subjC6 ⟨2025, nm, nd, nh, nmin⟩ =
        some (toISO (rollStart ⟨2025, 8, 29, 13, 0⟩ ⟨2025, nm, nd, nh, nmin⟩),
          toISO (endAdjust ⟨2025, 8, 29, 14, 0⟩
            (rollStart ⟨2025, 8, 29, 13, 0⟩ ⟨2025, nm, nd, nh, nmin⟩))) := rfl
    rw [key]
    have hroll : rollStart ⟨2025, 8, 29, 13, 0⟩ ⟨2025, nm, nd, nh, nmin⟩ =
        ⟨2026, 8, 29, 13, 0⟩ := by
      unfold rollStart
      dsimp only
      rw [show setYearD (⟨2025, 8, 29, 13, 0⟩ : LocalDate)
          (⟨2025, nm, nd, nh, nmin⟩ : LocalDate).year = ⟨2025, 8, 29, 13, 0⟩ from rfl]
      rw [if_pos hlt]
      decide
    rw [hroll]
    decide

/-- C6 witness: a concrete `now` of 2025-09-15 (after August 29, 2025)
rolls the range forward to 2026. -/
theorem C6_subject_range_witness :
    parseSubjectDateRange subjC6 ⟨2025, 9, 15, 0, 0⟩ =
      some ("2026-08-29T13:00:00", "2026-08-29T14:00:00") :=
  C6_subject_range.2 ⟨2025, 9, 15, 0, 0⟩ rfl (by decide)

end Myex
